import Mathlib

/-!
Verification of the pyrameter hyperparameter-search core.

This file gives a shallow embedding, in Lean, of the parts of the pyrameter
source that the verified properties are about:

* the Trial status state machine of pyrameter/trial.py, including the
  reentrant interaction of the Python setattr hook with set_status;
* the Specification splitting compiler of pyrameter/specification.py and
  the RepeatedDomain splitting of pyrameter/domains/repeated.py;
* the SearchSpace bookkeeping of pyrameter/searchspace.py (done, optimum,
  to_array) and the FMin orchestrator of pyrameter/optimizer.py
  (register_result in its single and batched forms, optimum, sort_spaces).

Python objects are modelled as immutable records, in-place mutation as
explicit state passing, raised exceptions as an Except error value that
carries the state at the moment the exception is raised (Python mutations
performed before the raise stay visible to the caller, so the carried state
records them).  Trial field values are kept abstract in a type parameter V
with decidable equality; hyperparameter vectors are lists over V and error
messages are strings, matching their use in the source.
-/

namespace Pyrameter

/-- Status values of a trial, from the TrialStatus enum of pyrameter/trial.py. -/
inductive TStatus where
  | INIT
  | READY
  | ERROR
  | DONE
deriving DecidableEq, Repr

/-- State of one Trial object (pyrameter/trial.py).  The field status is an
Option because Python initialises it to None before the first call of
set_status; dirty and submissions are the bookkeeping fields of the same
class.  The searchspace back reference carries no information used by the
verified properties and is omitted. -/
structure TrialState (V : Type) where
  tid : Nat
  hyperparameters : Option (List V)
  results : Option V
  objective : Option V
  errmsg : Option String
  status : Option TStatus
  dirty : Bool
  submissions : Nat
deriving DecidableEq, Repr

instance {V : Type} : Inhabited (TrialState V) :=
  ⟨{ tid := 0, hyperparameters := none, results := none, objective := none,
     errmsg := none, status := none, dirty := false, submissions := 0 }⟩

/-- Classification of the three mutable fields performed by the body of
Trial.set_status (trial.py lines 190-197): errmsg takes precedence, then
results together with hyperparameters, then hyperparameters alone. -/
def classify {V : Type} (h : Option (List V)) (r : Option V) (e : Option String) : TStatus :=
  if e.isSome then .ERROR
  else if r.isSome && h.isSome then .DONE
  else if h.isSome then .READY
  else .INIT

/-- One run of Trial.set_status (trial.py lines 186-198), fuelled.  The two
assignments inside set_status (to status and to dirty) go through the
setattr hook of the class (trial.py lines 89-96), which re-runs set_status
whenever the stored value changes, so the translation is recursive; the
fuel argument bounds that recursion and three units are enough for any
state, as proved below.  Each assignment first stores the value and then
re-runs set_status when the value changed, exactly as the hook does once
the status key exists in the instance dictionary. -/
def setStatusAux {V : Type} : Nat → TrialState V → TrialState V
  | 0, st => st
  | n + 1, st =>
    let oldstatus := st.status
    let c := classify st.hyperparameters st.results st.errmsg
    let st1 := if st.status = some c then { st with status := some c }
               else setStatusAux n { st with status := some c }
    let d : Bool := oldstatus = st1.status
    if st1.dirty = d then { st1 with dirty := d }
    else setStatusAux n { st1 with dirty := d }

/-- Entry point for one Python-level call of Trial.set_status.  Three units
of fuel always suffice (lemma setStatusAux_closed). -/
def setStatus {V : Type} (st : TrialState V) : TrialState V :=
  setStatusAux 3 st

/-- An assignment to one of the Trial fields whose setter participates in
the status state machine. -/
inductive Assign (V : Type) where
  | hyperparameters (v : Option (List V))
  | results (v : Option V)
  | objective (v : Option V)
  | errmsg (v : Option String)

/-- Store the assigned value in the record, with no trigger. -/
def putAssign {V : Type} (st : TrialState V) : Assign V → TrialState V
  | .hyperparameters v => { st with hyperparameters := v }
  | .results v => { st with results := v }
  | .objective v => { st with objective := v }
  | .errmsg v => { st with errmsg := v }

/-- Test whether the assigned value equals the currently stored one, the
start_val comparison of the setattr hook (trial.py line 95). -/
def sameVal {V : Type} [DecidableEq V] (st : TrialState V) : Assign V → Bool
  | .hyperparameters v => st.hyperparameters = v
  | .results v => st.results = v
  | .objective v => st.objective = v
  | .errmsg v => st.errmsg = v

/-- The setattr hook of Trial (trial.py lines 89-96) on a post-init state:
store the value, then re-run set_status when the value changed.  On every
state reachable after Trial construction the status key is present in the
instance dictionary, so the membership test of line 95 is true. -/
def setAttr {V : Type} [DecidableEq V] (st : TrialState V) (a : Assign V) : TrialState V :=
  let st1 := putAssign st a
  if sameVal st a then st1 else setStatus st1

/-- Effect of the statement submissions += 1 on a trial: the stored value
always changes, so the setattr hook re-runs set_status. -/
def incSubmissions {V : Type} (st : TrialState V) : TrialState V :=
  setStatus { st with submissions := st.submissions + 1 }

/-- Trial construction (trial.py lines 69-84): the field assignments in init
run before the status key exists, hence trigger nothing; the constructor
then stores None in status and calls set_status once. -/
def Trial.mkInit {V : Type} (tid : Nat) (h : Option (List V)) (r o : Option V)
    (e : Option String) : TrialState V :=
  setStatus { tid := tid, hyperparameters := h, results := r, objective := o,
              errmsg := e, status := none, dirty := false, submissions := 0 }

/-- Application of a sequence of field assignments through the setattr hook. -/
def applyAssigns {V : Type} [DecidableEq V] (st : TrialState V) (ops : List (Assign V)) :
    TrialState V :=
  ops.foldl setAttr st

/-!
Model of the Specification splitting compiler.

Specification children are stored in an insertion-ordered mapping in the
source; each child is either a leaf Domain, an ExhaustiveDomain, a
RepeatedDomain, or a nested Specification.  Child names equal their key in
the parent (Specification setattr stores the key as the name).  The base
unit of a RepeatedDomain is modelled as a leaf domain, the shape exercised
by the verified properties; bases that are themselves Specifications take
a different branch of the source and are outside this model.
-/

/-- Leaf hyperparameter domains as they appear in compiled configurations.
The repeatedNS constructor stands for a RepeatedDomain object with
should_split false, which the splitting code appends to configurations
unchanged like any other leaf domain; it carries the data needed to
reconstruct its copies (original key, base, repetition count). -/
inductive SpecDomain where
  | constant (name : String) (value : Int)
  | continuous (name : String) (lo hi : Int)
  | discrete (name : String) (values : List Int)
  | repeatedNS (name : String) (origKey : String) (base : SpecDomain) (reps : Nat)
deriving DecidableEq, Repr

/-- Name of a domain. -/
def SpecDomain.name : SpecDomain → String
  | .constant n _ => n
  | .continuous n _ _ => n
  | .discrete n _ => n
  | .repeatedNS n _ _ _ => n

/-- Assignment to the name attribute of a domain (the splitting code mutates
names in place to build dotted paths). -/
def SpecDomain.rename : SpecDomain → String → SpecDomain
  | .constant _ v, nm => .constant nm v
  | .continuous _ lo hi, nm => .continuous nm lo hi
  | .discrete _ vs, nm => .discrete nm vs
  | .repeatedNS _ k b r, nm => .repeatedNS nm k b r

/-- Specification tree: leaf domains, exhaustive domains, repeated domains
over a leaf base and nested specification nodes with exclusive and optional
flags.  Child names double as the child key in the parent mapping. -/
inductive SpecTree where
  | leaf (d : SpecDomain)
  | exhaustive (name : String) (values : List Int)
  | repeated (name : String) (base : SpecDomain) (reps : Nat) (shouldSplit : Bool)
  | node (name : String) (exclusive optional : Bool) (children : List SpecTree)

/-- Name of a specification tree child, as read by the splitting code. -/
def SpecTree.name : SpecTree → String
  | .leaf d => d.name
  | .exhaustive n _ => n
  | .repeated n _ _ _ => n
  | .node n _ _ _ => n

/-- Copies created by the RepeatedDomain constructor (repeated.py lines
77-79): repetitions deep copies of the base, copy number i renamed to the
domain name followed by three underscores and i. -/
def repCopies (nm : String) (base : SpecDomain) (k : Nat) : List SpecDomain :=
  (List.range k).map (fun i => base.rename (nm ++ "___" ++ toString i))

/-- RepeatedDomain.split (repeated.py lines 105-109): one new RepeatedDomain
per count in range(1, repetitions), i.e. counts 1 through repetitions - 1.
Each entry is returned as the pair of the new domain name and its copy
list. -/
def repeatedDomainSplit (nm : String) (base : SpecDomain) (reps : Nat) :
    List (String × List SpecDomain) :=
  (List.range' 1 (reps - 1)).map (fun k => (nm, repCopies nm base k))

mutual

/-- Specification.split (specification.py lines 99-169).  The root argument
is the dotted path prefix; children are processed in insertion order, each
first renamed to root dot name.  Only node trees are ever split in the
source, so the remaining constructors return the empty list. -/
def splitSpec : SpecTree → String → List (List SpecDomain)
  | .node _ ex opt children, root =>
    let res := splitChildren ex root children (if ex then [] else [[]])
    if opt then res ++ [[]] else res
  | _, _ => []

/-- Processing of the children of one Specification node, folding the
accumulated domainsets exactly as the loop body of Specification.split
does. -/
def splitChildren (ex : Bool) (root : String) : List SpecTree → List (List SpecDomain) →
    List (List SpecDomain)
  | [], acc => acc
  | c :: rest, acc =>
    let nm := root ++ "." ++ c.name
    let acc1 :=
      match c with
      | .node cn cex copt ccs =>
        -- recurse into the nested specification with the dotted name as root
        let sub := splitSpec (.node cn cex copt ccs) nm
        if ex then acc ++ sub
        else acc.flatMap (fun ds1 => sub.map (fun ds2 => ds1 ++ ds2))
      | .exhaustive _ values =>
        -- one ConstantDomain per value; in the joint case the fresh list
        -- replaces the accumulator only when it is nonempty
        if ex then acc ++ values.map (fun v => [SpecDomain.constant nm v])
        else
          let nds := values.flatMap (fun v => acc.map (fun ds1 => ds1 ++ [SpecDomain.constant nm v]))
          if nds.length > 0 then nds else acc
      | .repeated _ base reps shouldSplit =>
        if shouldSplit then
          -- the assignment on line 158 of specification.py replaces the
          -- accumulator with new_domainsets in both branches; the exclusive
          -- branch never fills new_domainsets, so its extension of the
          -- accumulator is discarded and the result is empty
          let split := repeatedDomainSplit nm base reps
          if ex then []
          else acc.flatMap (fun ds1 => split.map (fun ds2 => ds1 ++ ds2.2))
        else
          -- should_split false: the domain is appended like a plain leaf
          let d := SpecDomain.repeatedNS nm "" base reps
          if ex then acc ++ [[d]]
          else acc.map (fun ds1 => ds1 ++ [d])
      | .leaf d =>
        if ex then acc ++ [[d.rename nm]]
        else acc.map (fun ds1 => ds1 ++ [d.rename nm])
    splitChildren ex root rest acc1

end

/-!
Model of SearchSpace and the FMin orchestrator.

A SearchSpace carries its id, the ordered list of domain names (the only
domain data read by SearchSpace equality), its trial list and the cached
complexity, uncertainty and rank numbers used by sort_spaces.  The FMin
active list holds references to SearchSpace objects; it is modelled as the
list of their ids, with membership tests and removal performed through the
overridden SearchSpace equality, which compares domain-name lists.
-/

/-- Python exception kinds raised by the modelled code paths. -/
inductive PyErr where
  | indexError
  | valueError
  | attributeError
  | typeError
  | nameError
deriving DecidableEq, Repr

/-- State of one SearchSpace object (pyrameter/searchspace.py). -/
structure SSpace (V : Type) where
  sid : Nat
  domains : List String
  trials : List (TrialState V)
  complexity : Int
  uncertainty : Int
  rank : Int
deriving DecidableEq, Repr

instance {V : Type} : Inhabited (SSpace V) :=
  ⟨{ sid := 0, domains := [], trials := [], complexity := 0, uncertainty := 0, rank := 0 }⟩

/-- Count of trials with status DONE, the sum computed by SearchSpace.done
(searchspace.py line 120). -/
def countDone {V : Type} (ss : SSpace V) : Nat :=
  (ss.trials.filter (fun t => decide (t.status = some TStatus.DONE))).length

/-- SearchSpace.done (searchspace.py lines 119-121): complete at least
max_evals. -/
def SSpace.done {V : Type} (ss : SSpace V) (maxEvals : Nat) : Bool :=
  decide (maxEvals ≤ countDone ss)

/-- State of the FMin orchestrator (pyrameter/optimizer.py), restricted to
the fields the verified properties read: the search spaces, the keys of the
trial registry dictionary (its values alias trials stored in the spaces),
the active list as ids of the referenced spaces, and the per-space quota. -/
structure FMinState (V : Type) where
  searchspaces : List (SSpace V)
  trialsReg : List Nat
  active : List Nat
  maxEvals : Nat
deriving DecidableEq, Repr

/-- Domain-name list of the space a given active entry refers to (lookup by
first matching id over the searchspaces list). -/
def domainsOf {V : Type} (spaces : List (SSpace V)) (aid : Nat) : List String :=
  ((spaces.find? (fun s => decide (s.sid = aid))).map (fun s => s.domains)).getD []

/-- Membership test performed by the Python expression ss in self.active:
list membership uses the overridden SearchSpace equality, which compares
domain-name lists. -/
def activeContains {V : Type} (spaces : List (SSpace V)) (active : List Nat)
    (doms : List String) : Bool :=
  active.any (fun aid => decide (domainsOf spaces aid = doms))

/-- Removal performed by self.active.remove(ss): drop the first element
equal to ss under SearchSpace equality; none models the ValueError raised
when no element compares equal. -/
def removeActiveAux {V : Type} (spaces : List (SSpace V)) (doms : List String) :
    List Nat → Option (List Nat)
  | [] => none
  | aid :: rest =>
    if domainsOf spaces aid = doms then some rest
    else (removeActiveAux spaces doms rest).map (fun l => aid :: l)

/-- Replacement of trial j of search space i, the visible effect of a Python
in-place mutation of that trial object. -/
def putTrial {V : Type} (st : FMinState V) (i j : Nat) (t : TrialState V) : FMinState V :=
  let ss := st.searchspaces.getD i default
  { st with searchspaces := st.searchspaces.set i { ss with trials := ss.trials.set j t } }

/-- FMin.register_result, single-trial form (optimizer.py lines 216-247).
The space and the trial are located by first match on stringified ids,
modelled as id equality; an empty candidate list makes the [0] subscript
raise IndexError before any mutation.  The located trial is then mutated
through its setattr hook (objective, results, errmsg, submissions), its id
is added to the registry when absent, and the space is dropped from the
active list when it is a member and its DONE count has reached the quota.
The returned triple is the new orchestrator state plus the Python return
value (submissions, hyperparameters). -/
def registerResult {V : Type} [DecidableEq V] (st : FMinState V) (ssid tid : Nat)
    (obj res : Option V) (err : Option String) :
    Except (PyErr × FMinState V) (FMinState V × Nat × Option (List V)) :=
  match st.searchspaces.findIdx? (fun s => decide (s.sid = ssid)) with
  | none => .error (.indexError, st)
  | some i =>
    let ss := st.searchspaces.getD i default
    match ss.trials.findIdx? (fun t => decide (t.tid = tid)) with
    | none => .error (.indexError, st)
    | some j =>
      let trial := ss.trials.getD j default
      let t1 := setAttr trial (.objective obj)
      let st1 := putTrial st i j t1
      let t2 := setAttr t1 (.results res)
      let st2 := putTrial st1 i j t2
      let t3 := setAttr t2 (.errmsg err)
      let st3 := putTrial st2 i j t3
      let hyper := t3.hyperparameters
      let st4 := { st3 with trialsReg :=
        if st3.trialsReg.contains tid then st3.trialsReg else st3.trialsReg ++ [tid] }
      let t4 := incSubmissions t3
      let st5 := putTrial st4 i j t4
      let ss5 := st5.searchspaces.getD i default
      let st6 :=
        if activeContains st5.searchspaces st5.active ss5.domains && ss5.done st5.maxEvals then
          { st5 with active :=
            (removeActiveAux st5.searchspaces ss5.domains st5.active).getD st5.active }
        else st5
      .ok (st6, t4.submissions, hyper)

/-- Mutations performed by one batch iteration on the located trial: the
objective, results and errmsg assignments through the setattr hook, the
registry insertion when the id is absent, and the submissions increment,
written back into the space at index i. -/
def batchMut {V : Type} [DecidableEq V] (err : Option String) (st : FMinState V)
    (i j tid : Nat) (ob re : Option V) : FMinState V :=
  let trial := (st.searchspaces.getD i default).trials.getD j default
  let t1 := setAttr trial (.objective ob)
  let st1 := putTrial st i j t1
  let t2 := setAttr t1 (.results re)
  let st2 := putTrial st1 i j t2
  let t3 := setAttr t2 (.errmsg err)
  let st3 := putTrial st2 i j t3
  let st4 := { st3 with trialsReg :=
    if st3.trialsReg.contains tid then st3.trialsReg else st3.trialsReg ++ [tid] }
  putTrial st4 i j (incSubmissions t3)

/-- One iteration of the loop of the batched form of FMin.register_result
(optimizer.py lines 250-261): locate the trial by id (IndexError on a miss,
before mutation), index the objective and results lists, mutate the trial
through its setattr hook via batchMut, and, whenever the DONE count
satisfies the quota, remove the space from the active list with no
membership check, raising ValueError when no active entry compares equal.
The error value carries the state at the raise, with all mutations made so
far. -/
def batchStep {V : Type} [DecidableEq V] (err : Option String) (objs ress : List (Option V))
    (i tid k : Nat) (st : FMinState V) :
    Except (PyErr × FMinState V) (FMinState V × Option (List V) × Nat) :=
  let ss := st.searchspaces.getD i default
  match ss.trials.findIdx? (fun t => decide (t.tid = tid)) with
  | none => .error (.indexError, st)
  | some j =>
    match objs.get? k with
    | none => .error (.indexError, st)
    | some ob =>
      let trial := ss.trials.getD j default
      let t1 := setAttr trial (.objective ob)
      match ress.get? k with
      | none => .error (.indexError, putTrial st i j t1)
      | some re =>
        let t3 := setAttr (setAttr t1 (.results re)) (.errmsg err)
        let st5 := batchMut err st i j tid ob re
        let ss5 := st5.searchspaces.getD i default
        if ss5.done st5.maxEvals then
          match removeActiveAux st5.searchspaces ss5.domains st5.active with
          | none => .error (.valueError, st5)
          | some act =>
            .ok ({ st5 with active := act }, t3.hyperparameters, (incSubmissions t3).submissions)
        else .ok (st5, t3.hyperparameters, (incSubmissions t3).submissions)

/-- Loop of the batched form of FMin.register_result, iterating batchStep
over the trial ids with the running index into the objective and results
lists. -/
def batchLoop {V : Type} [DecidableEq V] (err : Option String) (objs ress : List (Option V))
    (i : Nat) : List Nat → Nat → FMinState V → List (Option (List V)) → Nat →
    Except (PyErr × FMinState V) (FMinState V × Nat × List (Option (List V)))
  | [], _, st, hypers, lastSubs => .ok (st, lastSubs, hypers)
  | tid :: rest, k, st, hypers, _ =>
    match batchStep err objs ress i tid k st with
    | .error e => .error e
    | .ok (st6, hyEntry, subs) =>
      batchLoop err objs ress i rest (k + 1) st6 (hypers ++ [hyEntry]) subs

/-- FMin.register_result, batched form (trial_id passed as a list).  With an
empty id list the final return statement reads the unbound loop variable
trial, raising NameError. -/
def registerResultBatch {V : Type} [DecidableEq V] (st : FMinState V) (ssid : Nat)
    (tids : List Nat) (objs ress : List (Option V)) (err : Option String) :
    Except (PyErr × FMinState V) (FMinState V × Nat × List (Option (List V))) :=
  match st.searchspaces.findIdx? (fun s => decide (s.sid = ssid)) with
  | none => .error (.indexError, st)
  | some i =>
    match tids with
    | [] => .error (.nameError, st)
    | _ => batchLoop err objs ress i tids 0 st [] 0

/-- Success test on a register_result outcome. -/
def regIsOk {V : Type} :
    Except (PyErr × FMinState V) (FMinState V × Nat × Option (List V)) → Bool
  | .ok _ => true
  | .error _ => false

/-- State visible to the caller after a register_result call: the new state
on success, the state at the moment of the raise on failure (Python mutates
in place, so both are observable). -/
def regStateAfter {V : Type} :
    Except (PyErr × FMinState V) (FMinState V × Nat × Option (List V)) → FMinState V
  | .ok (s, _, _) => s
  | .error (_, s) => s

/-- State visible to the caller after a batched register_result call. -/
def batchStateAfter {V : Type} :
    Except (PyErr × FMinState V) (FMinState V × Nat × List (Option (List V))) → FMinState V
  | .ok (s, _, _) => s
  | .error (_, s) => s

/-- Stable insertion of an element into a list: the element is placed
after every existing element le-below-or-equal to it. -/
def stableInsert {α : Type} (le : α → α → Bool) (x : α) : List α → List α
  | [] => [x]
  | y :: l => if le y x then y :: stableInsert le x l else x :: y :: l

/-- Stable ascending sort, the ordering contract of the Python sorted
builtin and of list.sort: equal elements keep their original relative
order. -/
def stableSort {α : Type} (le : α → α → Bool) (l : List α) : List α :=
  l.foldl (fun acc x => stableInsert le x acc) []

/-- Comparison of two trials by objective, the sort key used by
SearchSpace.optimum; both operands always carry an objective there because
the candidate list is filtered first. -/
def objLe {V : Type} [LinearOrder V] (a b : TrialState V) : Bool :=
  match a.objective, b.objective with
  | some x, some y => decide (x ≤ y)
  | _, _ => true

/-- SearchSpace.optimum with the default min mode (searchspace.py lines
161-183): sort the trials that carry an objective (not the DONE ones) by
objective ascending and return the first, or none when the list is empty. -/
def ssOptimum {V : Type} [LinearOrder V] (ss : SSpace V) : Option (TrialState V) :=
  (stableSort objLe (ss.trials.filter (fun t => t.objective.isSome))).head?

/-- FMin.optimum (optimizer.py lines 184-191): fold over the search spaces;
when best is already set and a space returns no candidate, the attribute
access candidate.objective is performed on None and raises AttributeError;
comparing objectives that are None raises TypeError. -/
def fMinOptimum {V : Type} [LinearOrder V] (spaces : List (SSpace V)) :
    Except PyErr (Option (TrialState V)) :=
  spaces.foldlM
    (fun best ss =>
      let candidate := ssOptimum ss
      match best with
      | none => .ok candidate
      | some b =>
        match candidate with
        | none => .error .attributeError
        | some c =>
          match c.objective, b.objective with
          | some x, some y => .ok (if x < y then some c else some b)
          | _, _ => .error .typeError)
    none

/-- Ascending argsort over Int values, np.argsort of optimizer.py lines
284 and 290.  Ties are returned in index order here; numpy uses an
unstable quicksort whose tie order is unspecified, and the verified
properties only use argsort on lists without ties. -/
def argsort (xs : List Int) : List Nat :=
  (stableSort (fun a b => decide (a.2 ≤ b.2)) xs.enum).map (fun p => p.1)

/-- The loop for i in range(idx.shape[0]): searchspaces[i].rank *= idx[i]
of FMin.sort_spaces: the space at position i has its rank multiplied by
entry i of the argsort array. -/
def applyRankMul {V : Type} (spaces : List (SSpace V)) (idx : List Nat) : List (SSpace V) :=
  spaces.enum.map (fun p =>
    match idx.get? p.1 with
    | some k => { p.2 with rank := p.2.rank * (k : Int) }
    | none => p.2)

/-- Rank assignment stage of FMin.sort_spaces (optimizer.py lines 280-293):
every rank is reset to 1, then multiplied positionally by the complexity
argsort and the uncertainty argsort when the respective flag is set. -/
def rankStage {V : Type} (spaces : List (SSpace V)) (useC useU : Bool) : List (SSpace V) :=
  let s0 := spaces.map (fun s => { s with rank := 1 })
  let s1 := if useC then applyRankMul s0 (argsort (s0.map (fun s => s.complexity))) else s0
  if useU then applyRankMul s1 (argsort (s1.map (fun s => s.uncertainty))) else s1

/-- FMin.sort_spaces (optimizer.py lines 270-297): rank assignment followed
by a stable ascending in-place sort by rank when either flag is set, which
also sets the did-sort flag. -/
def sortSpaces {V : Type} (spaces : List (SSpace V)) (useC useU didSort : Bool) :
    List (SSpace V) × Bool :=
  let s2 := rankStage spaces useC useU
  if useC || useU then (stableSort (fun a b => decide (a.rank ≤ b.rank)) s2, true)
  else (s2, didSort)

/-- Position of space index i in the ascending argsort order. -/
def positionInOrder (idx : List Nat) (i : Nat) : Nat :=
  idx.findIdx (fun k => decide (k = i))

/-- Modelled from the spec wording of sortSpaces, for comparison with the
source translation: each space multiplies its rank by its own position in
the ascending argsort of complexities (the inverse permutation of the
argsort), same for uncertainty, and the final order is ascending by the
rank product with ties broken by insertion order. -/
def rankStageClaim {V : Type} (spaces : List (SSpace V)) (useC useU : Bool) : List (SSpace V) :=
  let s0 := spaces.map (fun s => { s with rank := 1 })
  let s1 := if useC then
      let idx := argsort (s0.map (fun s => s.complexity))
      s0.enum.map (fun p => { p.2 with rank := p.2.rank * (positionInOrder idx p.1 : Int) })
    else s0
  if useU then
    let idx := argsort (s1.map (fun s => s.uncertainty))
    s1.enum.map (fun p => { p.2 with rank := p.2.rank * (positionInOrder idx p.1 : Int) })
  else s1

/-- Modelled from the spec wording of sortSpaces: the claimed final order. -/
def sortSpacesClaim {V : Type} (spaces : List (SSpace V)) (useC useU : Bool) :
    List (SSpace V) :=
  let s2 := rankStageClaim spaces useC useU
  if useC || useU then stableSort (fun a b => decide (a.rank ≤ b.rank)) s2 else s2

/-- Modelled from the spec: Trial.hyperparameter_indices is referenced by
SearchSpace.to_array (searchspace.py line 202) but defined nowhere under
the source tree; per the spec it maps the hyperparameter vector to numeric
indices via the to_index of each domain, in domain order.  The to_index
functions are abstracted into the toIdx argument keyed by domain name. -/
def hyperparameterIndices {V : Type} (toIdx : String → V → V) (domains : List String)
    (t : TrialState V) : List V :=
  (domains.zip (t.hyperparameters.getD [])).map (fun p => toIdx p.1 p.2)

/-- SearchSpace.to_array (searchspace.py lines 185-213) for scalar
objectives: None when the trial list is empty, otherwise one row per DONE
trial holding the index-mapped hyperparameters with the objective as the
final entry.  Cells are Option values so the objective column is the
stored objective field. -/
def toArray {V : Type} (toIdx : String → V → V) (ss : SSpace V) :
    Option (List (List (Option V))) :=
  let completed := ss.trials.filter (fun t => decide (t.status = some TStatus.DONE))
  if ss.trials.length > 0 then
    some (completed.map (fun t =>
      (hyperparameterIndices toIdx ss.domains t).map some ++ [t.objective]))
  else none

/-- Hyperparameters are untouched by setStatusAux. -/
theorem setStatusAux_hyp {V : Type} (n : Nat) (st : TrialState V) :
    (setStatusAux n st).hyperparameters = st.hyperparameters := by
  induction n generalizing st with
  | zero => rfl
  | succ n ih => simp only [setStatusAux]; split <;> split <;> simp [ih]

/-- Results are untouched by setStatusAux. -/
theorem setStatusAux_res {V : Type} (n : Nat) (st : TrialState V) :
    (setStatusAux n st).results = st.results := by
  induction n generalizing st with
  | zero => rfl
  | succ n ih => simp only [setStatusAux]; split <;> split <;> simp [ih]

/-- Errmsg is untouched by setStatusAux. -/
theorem setStatusAux_err {V : Type} (n : Nat) (st : TrialState V) :
    (setStatusAux n st).errmsg = st.errmsg := by
  induction n generalizing st with
  | zero => rfl
  | succ n ih => simp only [setStatusAux]; split <;> split <;> simp [ih]

/-- The trial id is untouched by setStatusAux. -/
theorem setStatusAux_tid {V : Type} (n : Nat) (st : TrialState V) :
    (setStatusAux n st).tid = st.tid := by
  induction n generalizing st with
  | zero => rfl
  | succ n ih => simp only [setStatusAux]; split <;> split <;> simp [ih]

/-- The objective is untouched by setStatusAux. -/
theorem setStatusAux_obj {V : Type} (n : Nat) (st : TrialState V) :
    (setStatusAux n st).objective = st.objective := by
  induction n generalizing st with
  | zero => rfl
  | succ n ih => simp only [setStatusAux]; split <;> split <;> simp [ih]

/-- The submission count is untouched by setStatusAux. -/
theorem setStatusAux_sub {V : Type} (n : Nat) (st : TrialState V) :
    (setStatusAux n st).submissions = st.submissions := by
  induction n generalizing st with
  | zero => rfl
  | succ n ih => simp only [setStatusAux]; split <;> split <;> simp [ih]

/-- One-step unfolding of setStatusAux at successor fuel. -/
theorem setStatusAux_one {V : Type} (k : Nat) (st : TrialState V) :
    setStatusAux (k + 1) st =
      (let c := classify st.hyperparameters st.results st.errmsg
       let st1 := if st.status = some c then { st with status := some c }
                  else setStatusAux k { st with status := some c }
       let d : Bool := st.status = st1.status
       if st1.dirty = d then { st1 with dirty := d }
       else setStatusAux k { st1 with dirty := d }) := rfl

/-- Closed form of set_status when the stored status already matches the
classification and dirty is already true: the call is the identity. -/
theorem setStatusAux_fix {V : Type} (n : Nat) (st : TrialState V)
    (hs : st.status = some (classify st.hyperparameters st.results st.errmsg))
    (hd : st.dirty = true) :
    setStatusAux (n + 1) st = st := by
  obtain ⟨tid, h, r, o, e, s, d, sub⟩ := st
  simp only at hs hd
  subst hs
  subst hd
  rw [setStatusAux_one]
  simp

/-- Closed form of set_status when the stored status matches the
classification but dirty is false: the call only sets dirty. -/
theorem setStatusAux_dirty {V : Type} (n : Nat) (st : TrialState V)
    (hs : st.status = some (classify st.hyperparameters st.results st.errmsg))
    (hd : st.dirty = false) :
    setStatusAux (n + 2) st = { st with dirty := true } := by
  obtain ⟨tid, h, r, o, e, s, d, sub⟩ := st
  simp only at hs hd
  subst hs
  subst hd
  show setStatusAux (n + 1 + 1) _ = _
  rw [setStatusAux_one]
  simp only [if_pos rfl]
  have hfix := setStatusAux_fix n
    ({ tid := tid, hyperparameters := h, results := r, objective := o, errmsg := e,
       status := some (classify h r e), dirty := true,
       submissions := sub } : TrialState V) (by simp) (by simp)
  simpa using hfix

/-- Closed form of one Python-level call of set_status on any state: the
status field ends at the classification of the current field values and
dirty ends true, whatever the starting status and dirty were.  The final
write of dirty inside set_status (trial.py line 198) is itself an
assignment that re-triggers set_status, and the re-triggered run always
leaves dirty true. -/
theorem setStatusAux_closed {V : Type} (n : Nat) (st : TrialState V) :
    setStatusAux (n + 3) st =
      { st with status := some (classify st.hyperparameters st.results st.errmsg),
                dirty := true } := by
  obtain ⟨tid, h, r, o, e, s, d, sub⟩ := st
  by_cases hs : s = some (classify h r e)
  · subst hs
    cases d
    · have h2 := setStatusAux_dirty (n + 1)
        ({ tid := tid, hyperparameters := h, results := r, objective := o, errmsg := e,
           status := some (classify h r e), dirty := false,
           submissions := sub } : TrialState V) (by simp) (by simp)
      exact h2
    · have h2 := setStatusAux_fix (n + 2)
        ({ tid := tid, hyperparameters := h, results := r, objective := o, errmsg := e,
           status := some (classify h r e), dirty := true,
           submissions := sub } : TrialState V) (by simp) (by simp)
      exact h2
  · -- the stored status differs from the classification: the status write
    -- re-triggers set_status, then the dirty write re-triggers it again
    have hsub : setStatusAux (n + 1 + 1)
        ({ tid := tid, hyperparameters := h, results := r, objective := o, errmsg := e,
           status := some (classify h r e), dirty := d,
           submissions := sub } : TrialState V) =
        ({ tid := tid, hyperparameters := h, results := r, objective := o, errmsg := e,
           status := some (classify h r e), dirty := true,
           submissions := sub } : TrialState V) := by
      cases d
      · exact setStatusAux_dirty n _ (by simp) (by simp)
      · exact setStatusAux_fix (n + 1) _ (by simp) (by simp)
    show setStatusAux (n + 2 + 1) _ = _
    rw [setStatusAux_one]
    simp only [if_neg hs]
    rw [show ((n : Nat) + 2) = n + 1 + 1 from rfl, hsub]
    simp only
    rw [if_neg (by simp [hs])]
    have h3 := setStatusAux_dirty n
      ({ tid := tid, hyperparameters := h, results := r, objective := o, errmsg := e,
         status := some (classify h r e),
         dirty := decide (s = some (classify h r e)),
         submissions := sub } : TrialState V) (by simp) (by simp [hs])
    simpa using h3

/-- Closed form of setStatus itself. -/
theorem setStatus_closed {V : Type} (st : TrialState V) :
    setStatus st =
      { st with status := some (classify st.hyperparameters st.results st.errmsg),
                dirty := true } :=
  setStatusAux_closed 0 st


/-- Fields of setStatus are those of its argument except status and dirty. -/
theorem setStatus_hyp {V : Type} (st : TrialState V) :
    (setStatus st).hyperparameters = st.hyperparameters := setStatusAux_hyp 3 st

/-- Results are untouched by setStatus. -/
theorem setStatus_res {V : Type} (st : TrialState V) :
    (setStatus st).results = st.results := setStatusAux_res 3 st

/-- Errmsg is untouched by setStatus. -/
theorem setStatus_err {V : Type} (st : TrialState V) :
    (setStatus st).errmsg = st.errmsg := setStatusAux_err 3 st

/-- The classification computed by set_status coincides with the
specification wording: ERROR when errmsg is set, else DONE when both
hyperparameters and results are set, else READY when hyperparameters are
set, else INIT. -/
theorem classify_spec {V : Type} (h : Option (List V)) (r : Option V) (e : Option String) :
    classify h r e =
      (if e.isSome then TStatus.ERROR
       else if h.isSome && r.isSome then TStatus.DONE
       else if h.isSome then TStatus.READY
       else TStatus.INIT) := by
  cases h <;> cases r <;> cases e <;> rfl

/-- An assignment carrying the value already stored leaves the record
unchanged. -/
theorem putAssign_same {V : Type} [DecidableEq V] (st : TrialState V) (a : Assign V)
    (hsv : sameVal st a = true) : putAssign st a = st := by
  cases a <;>
    (simp only [sameVal, decide_eq_true_eq] at hsv; cases st; simp_all [putAssign])

/-- The setattr hook preserves the status invariant: after any single
assignment the stored status is the classification of the stored fields. -/
theorem setAttr_statusInv {V : Type} [DecidableEq V] (st : TrialState V) (a : Assign V)
    (hinv : st.status = some (classify st.hyperparameters st.results st.errmsg)) :
    (setAttr st a).status =
      some (classify (setAttr st a).hyperparameters (setAttr st a).results (setAttr st a).errmsg) := by
  unfold setAttr
  by_cases hsv : sameVal st a = true
  · rw [if_pos hsv, putAssign_same st a hsv]
    exact hinv
  · rw [if_neg hsv, setStatus_closed]

/-- The status invariant survives any sequence of assignments. -/
theorem applyAssigns_statusInv {V : Type} [DecidableEq V] (ops : List (Assign V))
    (st : TrialState V)
    (hinv : st.status = some (classify st.hyperparameters st.results st.errmsg)) :
    (applyAssigns st ops).status =
      some (classify (applyAssigns st ops).hyperparameters (applyAssigns st ops).results
        (applyAssigns st ops).errmsg) := by
  induction ops generalizing st with
  | nil => exact hinv
  | cons a ops ih =>
    show (applyAssigns (setAttr st a) ops).status = _
    exact ih _ (setAttr_statusInv st a hinv)

/-- A freshly constructed trial satisfies the status invariant. -/
theorem mkInit_statusInv {V : Type} (tid : Nat) (h : Option (List V)) (r o : Option V)
    (e : Option String) :
    (Trial.mkInit tid h r o e).status =
      some (classify (Trial.mkInit tid h r o e).hyperparameters
        (Trial.mkInit tid h r o e).results (Trial.mkInit tid h r o e).errmsg) := by
  unfold Trial.mkInit
  rw [setStatus_closed]

/-- C1: for every Trial and after every sequence of assignments to its
hyperparameters, results, objective and errmsg fields, the stored status
equals the pure classification of the current field values: ERROR if
errmsg is non-null; else DONE if both hyperparameters and results are
non-null; else READY if hyperparameters is non-null; else INIT. -/
theorem c1_trial_status_pure {V : Type} [DecidableEq V] (tid : Nat) (h : Option (List V))
    (r o : Option V) (e : Option String) (ops : List (Assign V)) :
    (applyAssigns (Trial.mkInit tid h r o e) ops).status =
      some (if (applyAssigns (Trial.mkInit tid h r o e) ops).errmsg.isSome then TStatus.ERROR
            else if (applyAssigns (Trial.mkInit tid h r o e) ops).hyperparameters.isSome
                 && (applyAssigns (Trial.mkInit tid h r o e) ops).results.isSome then TStatus.DONE
            else if (applyAssigns (Trial.mkInit tid h r o e) ops).hyperparameters.isSome then TStatus.READY
            else TStatus.INIT) := by
  rw [← classify_spec]
  exact applyAssigns_statusInv ops _ (mkInit_statusInv tid h r o e)

/-- C8 counterexample: assigning hyperparameters to a fresh INIT trial does
change the computed status (INIT to READY) yet leaves dirty true, not
false: the write of dirty inside set_status re-triggers set_status through
the setattr hook, and the re-triggered run overwrites dirty with true. -/
theorem c8_counterexample :
    ((Trial.mkInit 0 none none none none : TrialState Int).status = some TStatus.INIT) ∧
    ((setAttr (Trial.mkInit 0 none none none none : TrialState Int)
        (Assign.hyperparameters (some [1]))).status = some TStatus.READY) ∧
    ((setAttr (Trial.mkInit 0 none none none none : TrialState Int)
        (Assign.hyperparameters (some [1]))).dirty = true) := by decide

/-- C8 amended: every assignment that stores a value different from the one
already stored leaves dirty true, whether or not the computed status
changes. -/
theorem c8_dirty_always {V : Type} [DecidableEq V] (st : TrialState V) (a : Assign V)
    (hch : sameVal st a = false) : (setAttr st a).dirty = true := by
  unfold setAttr
  rw [hch]
  simp [setStatus_closed]

/-- Witness for the amended C8 at a concrete input. -/
theorem c8_dirty_always_witness :
    (sameVal (Trial.mkInit 0 none none none none : TrialState Int)
       (Assign.hyperparameters (some [1])) = false) ∧
    ((setAttr (Trial.mkInit 0 none none none none : TrialState Int)
       (Assign.hyperparameters (some [1]))).dirty = true) :=
  ⟨by decide, c8_dirty_always _ _ (by decide)⟩

/-- Splitting an exclusive scope whose children are all leaf domains
appends one singleton configuration per child, in order. -/
theorem splitChildren_leaves (root : String) (ds : List SpecDomain)
    (acc : List (List SpecDomain)) :
    splitChildren true root (ds.map SpecTree.leaf) acc =
      acc ++ ds.map (fun d => [d.rename (root ++ "." ++ d.name)]) := by
  induction ds generalizing acc with
  | nil => simp [splitChildren]
  | cons d ds ih =>
    simp only [List.map_cons, splitChildren, SpecTree.name]
    rw [ih]
    simp

/-- C2: for every Specification whose root has exclusive true (and optional
false) and whose children are k leaf domains, split returns exactly the k
singleton configurations, one per child in declaration order, each holding
that child renamed to its dotted path; in particular the two-domain
instance with a continuous A and a discrete B yields A and B as two
one-domain configurations. -/
theorem c2_exclusive_leaf_split :
    (∀ (ds : List SpecDomain) (nm root : String),
        splitSpec (SpecTree.node nm true false (ds.map SpecTree.leaf)) root =
          ds.map (fun d => [d.rename (root ++ "." ++ d.name)])) ∧
    splitSpec (SpecTree.node "" true false
        [SpecTree.leaf (SpecDomain.continuous "A" 0 1),
         SpecTree.leaf (SpecDomain.discrete "B" [1, 2, 3])]) "" =
      [[SpecDomain.continuous ".A" 0 1], [SpecDomain.discrete ".B" [1, 2, 3]]] := by
  constructor
  · intro ds nm root
    simp [splitSpec, splitChildren_leaves]
  · decide

/-- C3: RepeatedDomain.split builds its new domains over range(1,
repetitions), so a repeated domain flagged to split compiles to
repetitions - 1 alternatives, for counts 1 through repetitions - 1; the
docstring of the class and the specification both promise repetitions
alternatives for counts 1 through repetitions.  At repetitions = 2 the
split yields the single count-1 alternative, and a joint scope holding
that repeated domain compiles to one configuration instead of two. -/
theorem c3_repeated_split_offbyone :
    (∀ (nm : String) (base : SpecDomain) (reps : Nat),
        (repeatedDomainSplit nm base reps).length = reps - 1) ∧
    repeatedDomainSplit ".conv" (SpecDomain.continuous "conv" 0 1) 2 =
      [(".conv", [SpecDomain.continuous ".conv___0" 0 1])] ∧
    splitSpec (SpecTree.node "" false false
        [SpecTree.repeated "conv" (SpecDomain.continuous "conv" 0 1) 2 true]) "" =
      [[SpecDomain.continuous ".conv___0" 0 1]] := by
  refine ⟨?_, by decide, by decide⟩
  intro nm base reps
  simp [repeatedDomainSplit]


/-- C5: FMin.optimum evaluated on a mixture of search spaces where a space
with a completed trial precedes a space with no trials: the loop sets best
from the first space, then dereferences objective on the None candidate of
the second space and raises AttributeError instead of returning the
optimum.  When no space has any trial with an objective the function does
return none. -/
theorem c5_optimum_mixture_crash :
    (fMinOptimum ([
      { sid := 0, domains := ["A"],
        trials := [
          { tid := 0, hyperparameters := some [1], results := some 1, objective := some 1,
            errmsg := none, status := some TStatus.DONE, dirty := true, submissions := 1 }],
        complexity := 1, uncertainty := 1, rank := 1 },
      { sid := 1, domains := ["B"], trials := [],
        complexity := 1, uncertainty := 1, rank := 1 }] : List (SSpace Int)) =
      .error PyErr.attributeError) ∧
    (fMinOptimum ([
      { sid := 0, domains := ["A"], trials := [],
        complexity := 1, uncertainty := 1, rank := 1 },
      { sid := 1, domains := ["B"], trials := [],
        complexity := 1, uncertainty := 1, rank := 1 }] : List (SSpace Int)) =
      .ok none) := by
  constructor
  · rfl
  · rfl

/-- Insertion by stableInsert is a permutation of consing. -/
theorem stableInsert_perm {α : Type} (le : α → α → Bool) (x : α) (l : List α) :
    List.Perm (stableInsert le x l) (x :: l) := by
  induction l with
  | nil => exact List.Perm.refl _
  | cons y l ih =>
    simp only [stableInsert]
    split
    · exact (List.Perm.cons y ih).trans (List.Perm.swap x y l)
    · exact List.Perm.refl _

/-- The stable sort permutes its input. -/
theorem stableSort_perm {α : Type} (le : α → α → Bool) (l : List α) :
    (stableSort le l).Perm l := by
  have key : ∀ (l acc : List α),
      (l.foldl (fun acc x => stableInsert le x acc) acc).Perm (acc ++ l) := by
    intro l
    induction l with
    | nil => intro acc; simp
    | cons x l ih =>
      intro acc
      have h1 : ((x :: l).foldl (fun acc x => stableInsert le x acc) acc) =
          (l.foldl (fun acc x => stableInsert le x acc) (stableInsert le x acc)) := rfl
      rw [h1]
      refine (ih (stableInsert le x acc)).trans ?_
      refine (List.Perm.append_right l (stableInsert_perm le x acc)).trans ?_
      exact List.perm_middle.symm
  have h2 := key l []
  simpa [stableSort] using h2

/-- Sortedness of stableInsert given transitivity and totality. -/
theorem stableInsert_pairwise {α : Type} (le : α → α → Bool)
    (htrans : ∀ a b c, le a b = true → le b c = true → le a c = true)
    (htot : ∀ a b, le a b = true ∨ le b a = true) (x : α) (l : List α)
    (hl : l.Pairwise (fun a b => le a b = true)) :
    (stableInsert le x l).Pairwise (fun a b => le a b = true) := by
  induction l with
  | nil => simp [stableInsert]
  | cons y l ih =>
    simp only [stableInsert]
    rcases List.pairwise_cons.mp hl with ⟨hy, hl2⟩
    split
    · rename_i hxy
      refine List.pairwise_cons.mpr ⟨?_, ih hl2⟩
      intro z hz
      rcases (stableInsert_perm le x l).mem_iff.mp hz with hz2
      rcases List.mem_cons.mp hz2 with rfl | hz3
      · exact hxy
      · exact hy z hz3
    · rename_i hxy
      have hxy2 : le x y = true := by
        rcases htot x y with h | h
        · exact h
        · exact absurd h hxy
      refine List.pairwise_cons.mpr ⟨?_, hl⟩
      intro z hz
      rcases List.mem_cons.mp hz with rfl | hz2
      · exact hxy2
      · exact htrans x y z hxy2 (hy z hz2)

/-- Sortedness of the stable sort. -/
theorem stableSort_pairwise {α : Type} (le : α → α → Bool)
    (htrans : ∀ a b c, le a b = true → le b c = true → le a c = true)
    (htot : ∀ a b, le a b = true ∨ le b a = true) (l : List α) :
    (stableSort le l).Pairwise (fun a b => le a b = true) := by
  have key : ∀ (l acc : List α), acc.Pairwise (fun a b => le a b = true) →
      (l.foldl (fun acc x => stableInsert le x acc) acc).Pairwise (fun a b => le a b = true) := by
    intro l
    induction l with
    | nil => intro acc h; exact h
    | cons x l ih =>
      intro acc h
      exact ih _ (stableInsert_pairwise le htrans htot x acc h)
  exact key l [] (List.Pairwise.nil)



/-- C6 counterexample: with three spaces of complexities 2, 3 and 1 (one
heuristic requested), sort_spaces multiplies the rank of the space at
position i by entry i of the argsort array, yielding final id order
1, 2, 0, while the claimed rule (multiply by the position of the space in
the argsort order, the inverse permutation) would yield 2, 0, 1. -/
theorem c6_sort_spaces_counterexample :
    ((sortSpaces ([
      { sid := 0, domains := [], trials := [], complexity := 2, uncertainty := 1, rank := 0 },
      { sid := 1, domains := [], trials := [], complexity := 3, uncertainty := 1, rank := 0 },
      { sid := 2, domains := [], trials := [], complexity := 1, uncertainty := 1, rank := 0 }] :
      List (SSpace Int)) true false false).1.map (fun s => s.sid) = [1, 2, 0]) ∧
    ((sortSpacesClaim ([
      { sid := 0, domains := [], trials := [], complexity := 2, uncertainty := 1, rank := 0 },
      { sid := 1, domains := [], trials := [], complexity := 3, uncertainty := 1, rank := 0 },
      { sid := 2, domains := [], trials := [], complexity := 1, uncertainty := 1, rank := 0 }] :
      List (SSpace Int)) true false).map (fun s => s.sid) = [2, 0, 1]) ∧
    ([1, 2, 0] ≠ ([2, 0, 1] : List Nat)) := by
  refine ⟨by rfl, by rfl, by decide⟩

/-- C6 amended: sort_spaces initialises every rank to 1 and multiplies the
rank of the space at position i by entry i of the ascending argsort of
complexities (the index of the i-th smallest complexity, not the position
of space i in that order), then likewise for uncertainty, and when either
flag is set it stably sorts the spaces ascending by the resulting rank (so
ties keep insertion order) and records that a sort happened. -/
theorem c6_sort_spaces_amended {V : Type} (spaces : List (SSpace V))
    (useC useU didSort : Bool) :
    ((sortSpaces spaces useC useU didSort).1).Perm (rankStage spaces useC useU) ∧
    ((useC || useU) = true →
      ((sortSpaces spaces useC useU didSort).1).Pairwise (fun a b => a.rank ≤ b.rank) ∧
      (sortSpaces spaces useC useU didSort).2 = true) := by
  unfold sortSpaces
  by_cases hf : (useC || useU) = true
  · rw [hf]
    simp only [if_pos rfl]
    refine ⟨stableSort_perm _ _, fun _ => ⟨?_, rfl⟩⟩
    have hp := stableSort_pairwise (fun a b : SSpace V => decide (a.rank ≤ b.rank))
      (fun a b c h1 h2 => by
        simp only [decide_eq_true_eq] at h1 h2 ⊢
        exact le_trans h1 h2)
      (fun a b => by
        simp only [decide_eq_true_eq]
        exact le_total a.rank b.rank)
      (rankStage spaces useC useU)
    exact hp.imp (fun hab => by simpa using hab)
  · rw [if_neg hf]
    exact ⟨List.Perm.refl _, fun hc => absurd hc hf⟩

/-- Witness for the amended C6 at a concrete input with the complexity
flag set. -/
theorem c6_sort_spaces_amended_witness :
    ((sortSpaces ([
      { sid := 0, domains := [], trials := [], complexity := 2, uncertainty := 1, rank := 0 },
      { sid := 1, domains := [], trials := [], complexity := 3, uncertainty := 1, rank := 0 }] :
      List (SSpace Int)) true false false).1).Perm
        (rankStage ([
      { sid := 0, domains := [], trials := [], complexity := 2, uncertainty := 1, rank := 0 },
      { sid := 1, domains := [], trials := [], complexity := 3, uncertainty := 1, rank := 0 }] :
      List (SSpace Int)) true false) ∧
    (((sortSpaces ([
      { sid := 0, domains := [], trials := [], complexity := 2, uncertainty := 1, rank := 0 },
      { sid := 1, domains := [], trials := [], complexity := 3, uncertainty := 1, rank := 0 }] :
      List (SSpace Int)) true false false).1).Pairwise (fun a b => a.rank ≤ b.rank) ∧
      ((sortSpaces ([
      { sid := 0, domains := [], trials := [], complexity := 2, uncertainty := 1, rank := 0 },
      { sid := 1, domains := [], trials := [], complexity := 3, uncertainty := 1, rank := 0 }] :
      List (SSpace Int)) true false false).2 = true)) :=
  ⟨(c6_sort_spaces_amended _ true false false).1,
   (c6_sort_spaces_amended _ true false false).2 (by decide)⟩

/-- C7: register_result called with a space id matching no search space, or
a trial id matching no trial of the located space, raises IndexError out of
the empty-lookup subscript before any mutation: the error is surfaced to
the caller and the carried state is exactly the input state, so no trial
field is touched. -/
theorem c7_unknown_lookup_no_mutation {V : Type} [DecidableEq V] (st : FMinState V)
    (ssid tid : Nat) (obj res : Option V) (err : Option String)
    (hmiss : st.searchspaces.findIdx? (fun s => decide (s.sid = ssid)) = none ∨
      (∃ i, st.searchspaces.findIdx? (fun s => decide (s.sid = ssid)) = some i ∧
        ((st.searchspaces.getD i default).trials.findIdx?
          (fun t => decide (t.tid = tid))) = none)) :
    registerResult st ssid tid obj res err = .error (.indexError, st) := by
  unfold registerResult
  rcases hmiss with hm | ⟨i, hi, hm⟩
  · rw [hm]
  · rw [hi]
    simp only [hm]

/-- Witness for C7 at a concrete input: an orchestrator with one space and
no trials, queried for an unknown trial id. -/
theorem c7_unknown_lookup_no_mutation_witness :
    (let st0 : FMinState Int :=
      { searchspaces := [{ sid := 0, domains := ["A"], trials := [], complexity := 1, uncertainty := 1, rank := 1 }], trialsReg := [], active := [0], maxEvals := 2 }
     ((st0.searchspaces.findIdx? (fun s => decide (s.sid = 0)) = none ∨
       (∃ i, st0.searchspaces.findIdx? (fun s => decide (s.sid = 0)) = some i ∧
         ((st0.searchspaces.getD i default).trials.findIdx? (fun t => decide (t.tid = 7))) = none)) ∧
      registerResult st0 0 7 none none none = .error (.indexError, st0))) := by
  exact ⟨Or.inr ⟨0, by decide, by decide⟩,
    c7_unknown_lookup_no_mutation _ 0 7 none none none (Or.inr ⟨0, by decide, by decide⟩)⟩


/-- C9: to_array returns None exactly when the trial list is empty; when at
least one trial exists (aligned hyperparameter vectors assumed, as numpy
requires) it returns a matrix with one row per DONE trial and one more
column than there are domains, the objective sitting in the final column;
in particular a space whose trials are all non-DONE yields a zero-row
matrix rather than None. -/
theorem c9_to_array {V : Type} (toIdx : String → V → V) (ss : SSpace V)
    (halign : ∀ t ∈ ss.trials, t.status = some TStatus.DONE →
      (t.hyperparameters.getD []).length = ss.domains.length) :
    (toArray toIdx ss = none ↔ ss.trials = []) ∧
    (∀ m, toArray toIdx ss = some m →
      m.length = countDone ss ∧
      ∀ row ∈ m, row.length = ss.domains.length + 1 ∧
        ∃ t ∈ ss.trials, t.status = some TStatus.DONE ∧ row.getLast? = some t.objective) := by
  have hcomp : ∀ t ∈ ss.trials.filter (fun t => decide (t.status = some TStatus.DONE)),
      t ∈ ss.trials ∧ t.status = some TStatus.DONE := by
    intro t ht
    have h2 := List.mem_filter.mp ht
    exact ⟨h2.1, by simpa using h2.2⟩
  simp only [toArray]
  by_cases hl : ss.trials.length > 0
  · rw [if_pos hl]
    constructor
    · constructor
      · intro h; exact absurd h (by simp)
      · intro h; rw [h] at hl; simp at hl
    · intro m hm
      rw [Option.some_inj] at hm
      subst hm
      constructor
      · simp [countDone]
      · intro row hrow
        rcases List.mem_map.mp hrow with ⟨t, ht, rfl⟩
        rcases hcomp t ht with ⟨htmem, hstat⟩
        refine ⟨?_, t, htmem, hstat, by simp⟩
        simp [hyperparameterIndices, List.length_zip, halign t htmem hstat]
  · rw [if_neg hl]
    have htr : ss.trials = [] := by
      cases h : ss.trials with
      | nil => rfl
      | cons a l => rw [h] at hl; simp at hl
    constructor
    · simpa using htr
    · intro m hm; exact absurd hm (by simp)

/-- Witness for C9 at a concrete input: one DONE trial over one domain. -/
theorem c9_to_array_witness :
    (let ssW : SSpace Int :=
      { sid := 0, domains := ["A"],
        trials := [{ tid := 0, hyperparameters := some [5], results := some 1, objective := some 2, errmsg := none, status := some TStatus.DONE, dirty := true, submissions := 1 }],
        complexity := 1, uncertainty := 1, rank := 1 }
     (∀ t ∈ ssW.trials, t.status = some TStatus.DONE →
        (t.hyperparameters.getD []).length = ssW.domains.length) ∧
     ((toArray (fun _ v => v) ssW = none ↔ ssW.trials = []) ∧
      (∀ m, toArray (fun _ v => v) ssW = some m →
        m.length = countDone ssW ∧
        ∀ row ∈ m, row.length = ssW.domains.length + 1 ∧
          ∃ t ∈ ssW.trials, t.status = some TStatus.DONE ∧ row.getLast? = some t.objective))) := by
  exact ⟨by decide, c9_to_array (fun _ v => v) _ (by decide)⟩



/-- Replacing one list element with one of equal sid and domains does not
change what find?-by-sid reports about domains. -/
theorem find?_domains_set {V : Type} (l : List (SSpace V)) (i : Nat) (b : SSpace V)
    (aid : Nat) (hsid : b.sid = (l.getD i default).sid)
    (hdom : b.domains = (l.getD i default).domains) :
    ((l.set i b).find? (fun s => decide (s.sid = aid))).map (fun s => s.domains) =
      (l.find? (fun s => decide (s.sid = aid))).map (fun s => s.domains) := by
  induction l generalizing i with
  | nil => simp
  | cons h tl ih =>
    cases i with
    | zero =>
      simp only [List.getD_cons_zero] at hsid hdom
      simp only [List.set_cons_zero, List.find?_cons]
      rw [hsid]
      by_cases hp : h.sid = aid
      · simp [hp, hdom]
      · simp [hp]
    | succ i =>
      simp only [List.getD_cons_succ] at hsid hdom
      simp only [List.set_cons_succ, List.find?_cons]
      by_cases hp : h.sid = aid
      · simp [hp]
      · simp only [hp, decide_False]
        exact ih i hsid hdom

/-- Value of getD at the replaced index. -/
theorem getD_set_self {α : Type} (l : List α) (i : Nat) (b d : α) :
    (l.set i b).getD i d = if i < l.length then b else d := by
  induction l generalizing i with
  | nil => simp
  | cons h tl ih =>
    cases i with
    | zero => simp
    | succ i => simpa [Nat.succ_lt_succ_iff] using ih i

/-- The active list is untouched by putTrial. -/
@[simp] theorem putTrial_active {V : Type} (st : FMinState V) (i j : Nat) (t : TrialState V) :
    (putTrial st i j t).active = st.active := rfl

/-- The quota is untouched by putTrial. -/
@[simp] theorem putTrial_maxEvals {V : Type} (st : FMinState V) (i j : Nat) (t : TrialState V) :
    (putTrial st i j t).maxEvals = st.maxEvals := rfl

/-- The registry keys are untouched by putTrial. -/
@[simp] theorem putTrial_trialsReg {V : Type} (st : FMinState V) (i j : Nat) (t : TrialState V) :
    (putTrial st i j t).trialsReg = st.trialsReg := rfl

/-- putTrial does not change the domains reported for any active entry. -/
@[simp] theorem domainsOf_putTrial {V : Type} (st : FMinState V) (i j : Nat)
    (t : TrialState V) (aid : Nat) :
    domainsOf (putTrial st i j t).searchspaces aid = domainsOf st.searchspaces aid := by
  unfold domainsOf putTrial
  simp only []
  rw [find?_domains_set st.searchspaces i
    ({ st.searchspaces.getD i default with
       trials := (st.searchspaces.getD i default).trials.set j t }) aid rfl rfl]

/-- putTrial preserves the sid of the space at the replaced index. -/
theorem putTrial_getD_sid {V : Type} (st : FMinState V) (i j : Nat) (t : TrialState V) :
    ((putTrial st i j t).searchspaces.getD i default).sid =
      (st.searchspaces.getD i default).sid := by
  unfold putTrial
  simp only []
  rw [getD_set_self]
  split
  · rfl
  · rename_i hlen
    rw [List.getD_eq_getElem?_getD, List.getElem?_eq_none (Nat.le_of_not_lt hlen)]
    rfl

/-- putTrial preserves the domains of the space at the replaced index. -/
theorem putTrial_getD_domains {V : Type} (st : FMinState V) (i j : Nat) (t : TrialState V) :
    ((putTrial st i j t).searchspaces.getD i default).domains =
      (st.searchspaces.getD i default).domains := by
  unfold putTrial
  simp only []
  rw [getD_set_self]
  split
  · rfl
  · rename_i hlen
    rw [List.getD_eq_getElem?_getD, List.getElem?_eq_none (Nat.le_of_not_lt hlen)]
    rfl

/-- Successful removal keeps every entry whose domains differ. -/
theorem removeActiveAux_keep {V : Type} (sp : List (SSpace V)) (doms : List String) (b : Nat)
    (hbd : domainsOf sp b ≠ doms) :
    ∀ (l l2 : List Nat), removeActiveAux sp doms l = some l2 → b ∈ l → b ∈ l2 := by
  intro l
  induction l with
  | nil => intro l2 hrm _; simp [removeActiveAux] at hrm
  | cons a rest ih =>
    intro l2 hrm hb
    simp only [removeActiveAux] at hrm
    by_cases ha : domainsOf sp a = doms
    · rw [if_pos ha] at hrm
      cases hrm
      rcases List.mem_cons.mp hb with rfl | hb2
      · exact absurd ha hbd
      · exact hb2
    · rw [if_neg ha] at hrm
      rcases Option.map_eq_some'.mp hrm with ⟨l3, hl3, rfl⟩
      rcases List.mem_cons.mp hb with rfl | hb2
      · exact List.mem_cons_self _ _
      · exact List.mem_cons_of_mem _ (ih l3 hl3 hb2)

/-- Successful removal drops the unique matching entry when the list has no
duplicates. -/
theorem removeActiveAux_drop {V : Type} (sp : List (SSpace V)) (doms : List String) (b : Nat)
    (hbd : domainsOf sp b = doms) :
    ∀ (l l2 : List Nat), removeActiveAux sp doms l = some l2 → l.Nodup →
      (∀ a ∈ l, domainsOf sp a = doms → a = b) → b ∉ l2 := by
  intro l
  induction l with
  | nil => intro l2 hrm _ _; simp [removeActiveAux] at hrm
  | cons a rest ih =>
    intro l2 hrm hnd huniq
    simp only [removeActiveAux] at hrm
    rcases List.nodup_cons.mp hnd with ⟨hanotin, hndrest⟩
    by_cases ha : domainsOf sp a = doms
    · rw [if_pos ha] at hrm
      cases hrm
      have hab : a = b := huniq a (List.mem_cons_self _ _) ha
      subst hab
      exact hanotin
    · rw [if_neg ha] at hrm
      rcases Option.map_eq_some'.mp hrm with ⟨l3, hl3, rfl⟩
      have hba : b ≠ a := by
        intro hba
        subst hba
        exact ha hbd
      intro hmem
      rcases List.mem_cons.mp hmem with h1 | h2
      · exact hba h1
      · exact ih l3 hl3 hndrest (fun x hx hxd => huniq x (List.mem_cons_of_mem a hx) hxd) h2

/-- Entries of a successful removal come from the original list. -/
theorem removeActiveAux_subset {V : Type} (sp : List (SSpace V)) (doms : List String) (b : Nat) :
    ∀ (l l2 : List Nat), removeActiveAux sp doms l = some l2 → b ∈ l2 → b ∈ l := by
  intro l
  induction l with
  | nil => intro l2 hrm _; simp [removeActiveAux] at hrm
  | cons a rest ih =>
    intro l2 hrm hb
    simp only [removeActiveAux] at hrm
    by_cases ha : domainsOf sp a = doms
    · rw [if_pos ha] at hrm
      cases hrm
      exact List.mem_cons_of_mem _ hb
    · rw [if_neg ha] at hrm
      rcases Option.map_eq_some'.mp hrm with ⟨l3, hl3, rfl⟩
      rcases List.mem_cons.mp hb with rfl | hb2
      · exact List.mem_cons_self _ _
      · exact List.mem_cons_of_mem _ (ih l3 hl3 hb2)

/-- Membership by domains is exactly solvability of the removal. -/
theorem activeContains_iff_remove {V : Type} (sp : List (SSpace V)) (doms : List String)
    (l : List Nat) :
    l.any (fun aid => decide (domainsOf sp aid = doms)) = true ↔
      ∃ l2, removeActiveAux sp doms l = some l2 := by
  induction l with
  | nil => simp [removeActiveAux]
  | cons a rest ih =>
    simp only [List.any_cons, removeActiveAux]
    by_cases ha : domainsOf sp a = doms
    · simp [ha]
    · simp only [ha, decide_False, Bool.false_or, if_neg ha]
      rw [ih]
      constructor
      · rintro ⟨l2, hl2⟩
        exact ⟨a :: l2, by rw [hl2]; rfl⟩
      · rintro ⟨l2, hl2⟩
        rcases Option.map_eq_some'.mp hl2 with ⟨l3, hl3, rfl⟩
        exact ⟨l3, hl3⟩

/-- find? returns the element at the index reported by findIdx?. -/
theorem find?_getD_of_findIdx? {α : Type} (l : List α) (p : α → Bool) (i : Nat)
    (hi : l.findIdx? p = some i) (d : α) : l.find? p = some (l.getD i d) := by
  induction l generalizing i with
  | nil => simp at hi
  | cons a tl ih =>
    rw [List.findIdx?_cons] at hi
    by_cases hp : p a
    · rw [if_pos hp] at hi
      cases hi
      simp [List.find?_cons, hp]
    · rw [if_neg hp] at hi
      rw [List.findIdx?_succ] at hi
      rcases Option.map_eq_some'.mp hi with ⟨i2, hi2, rfl⟩
      simp only [List.find?_cons, hp]
      simpa using ih i2 hi2



/-- Under pairwise distinct sids, find?-by-sid locates any member. -/
theorem find?_sid_unique {V : Type} (l : List (SSpace V))
    (hids : l.Pairwise (fun a b => a.sid ≠ b.sid)) (s : SSpace V) (hs : s ∈ l) :
    l.find? (fun x => decide (x.sid = s.sid)) = some s := by
  induction l with
  | nil => simp at hs
  | cons h tl ih =>
    rcases List.pairwise_cons.mp hids with ⟨hh, htl⟩
    rcases List.mem_cons.mp hs with rfl | hs2
    · simp [List.find?_cons]
    · have hneq : h.sid ≠ s.sid := hh s hs2
      simp only [List.find?_cons, hneq, decide_False]
      exact ih htl hs2

/-- Members of a pairwise-related list that the relation does not separate
are equal. -/
theorem pairwise_mem_eq {α : Type} {R : α → α → Prop} (hsym : ∀ a b, R a b → R b a)
    (l : List α) (hl : l.Pairwise R) (a b : α) (ha : a ∈ l) (hb : b ∈ l)
    (hnr : ¬R a b) : a = b := by
  induction l with
  | nil => simp at ha
  | cons h tl ih =>
    rcases List.pairwise_cons.mp hl with ⟨hh, htl⟩
    rcases List.mem_cons.mp ha with rfl | ha2
    · rcases List.mem_cons.mp hb with rfl | hb2
      · rfl
      · exact absurd (hh b hb2) hnr
    · rcases List.mem_cons.mp hb with rfl | hb2
      · exact absurd (hsym b a (hh a ha2)) hnr
      · exact ih htl ha2 hb2

/-- Behaviour of the final active-list update of register_result: when the
quota flag is set the space is no longer an active member afterwards, and
entries of other spaces survive, provided the domains of the target space
identify it uniquely among the active entries. -/
theorem activeUpdate_spec {V : Type} (st5 st : FMinState V) (doms5 : List String)
    (ssid : Nat) (c : Bool)
    (hact : st5.active = st.active)
    (hdomc : ∀ aid, domainsOf st5.searchspaces aid = domainsOf st.searchspaces aid)
    (hdommatch : domainsOf st.searchspaces ssid = doms5)
    (hkey : ∀ aid ∈ st.active, domainsOf st.searchspaces aid = doms5 → aid = ssid)
    (hnodup : st.active.Nodup) :
    (c = true → ssid ∉ (if activeContains st5.searchspaces st5.active doms5 && c then
        { st5 with active := (removeActiveAux st5.searchspaces doms5 st5.active).getD st5.active }
      else st5).active) ∧
    (∀ aid ∈ st.active, aid ≠ ssid → aid ∈ (if activeContains st5.searchspaces st5.active doms5 && c then
        { st5 with active := (removeActiveAux st5.searchspaces doms5 st5.active).getD st5.active }
      else st5).active) := by
  by_cases hcont : activeContains st5.searchspaces st5.active doms5 = true
  · cases c with
    | false =>
      simp only [Bool.and_false, if_neg (Bool.false_ne_true)]
      refine ⟨fun hc => absurd hc (by simp), ?_⟩
      intro aid hmem _
      rw [hact]
      exact hmem
    | true =>
      have hc : (activeContains st5.searchspaces st5.active doms5 && true) = true := by simp [hcont]
      rw [if_pos hc]
      have hrem : ∃ l2, removeActiveAux st5.searchspaces doms5 st5.active = some l2 := by
        exact (activeContains_iff_remove st5.searchspaces doms5 st5.active).mp hcont
      obtain ⟨l2, hl2⟩ := hrem
      simp only [hl2, Option.getD_some]
      constructor
      · intro _
        by_cases hss : ssid ∈ st.active
        · refine removeActiveAux_drop st5.searchspaces doms5 ssid ?_ st5.active l2 hl2 ?_ ?_
          · rw [hdomc, hdommatch]
          · rw [hact]; exact hnodup
          · intro a ha had
            rw [hact] at ha
            rw [hdomc] at had
            exact hkey a ha had
        · intro hmem
          apply hss
          rw [← hact]
          exact removeActiveAux_subset st5.searchspaces doms5 ssid st5.active l2 hl2 hmem
      · intro aid hmem hne
        refine removeActiveAux_keep st5.searchspaces doms5 aid ?_ st5.active l2 hl2 ?_
        · intro had
          rw [hdomc] at had
          exact hne (hkey aid hmem had)
        · rw [hact]; exact hmem
  · have hcf : activeContains st5.searchspaces st5.active doms5 = false := by
      cases hx : activeContains st5.searchspaces st5.active doms5
      · rfl
      · exact absurd hx hcont
    have hc : (activeContains st5.searchspaces st5.active doms5 && c) = false := by simp [hcf]
    rw [hc]
    simp only [if_neg (Bool.false_ne_true)]
    constructor
    · intro _ hmem
      apply hcont
      unfold activeContains
      refine List.any_eq_true.mpr ⟨ssid, hmem, ?_⟩
      rw [hdomc, hdommatch]
      simp
    · intro aid hmem _
      rw [hact]
      exact hmem



/-- Final step of register_result abstracted over the mutated state: the
done test and active update of optimizer.py lines 246-247. -/
theorem c4_main_step {V : Type} (st st5 : FMinState V) (i ssid : Nat)
    (hact : st5.active = st.active)
    (hdomc : ∀ aid, domainsOf st5.searchspaces aid = domainsOf st.searchspaces aid)
    (hdommatch : domainsOf st.searchspaces ssid = (st5.searchspaces.getD i default).domains)
    (hkey5 : ∀ aid ∈ st.active,
      domainsOf st.searchspaces aid = (st5.searchspaces.getD i default).domains → aid = ssid)
    (hnodup : st.active.Nodup)
    (hme : st5.maxEvals = st.maxEvals) :
    (((if activeContains st5.searchspaces st5.active (st5.searchspaces.getD i default).domains &&
          (st5.searchspaces.getD i default).done st5.maxEvals then
        { st5 with active := (removeActiveAux st5.searchspaces
            (st5.searchspaces.getD i default).domains st5.active).getD st5.active }
      else st5).searchspaces.getD i default).done st.maxEvals = true →
      ssid ∉ (if activeContains st5.searchspaces st5.active (st5.searchspaces.getD i default).domains &&
          (st5.searchspaces.getD i default).done st5.maxEvals then
        { st5 with active := (removeActiveAux st5.searchspaces
            (st5.searchspaces.getD i default).domains st5.active).getD st5.active }
      else st5).active) ∧
    (∀ aid ∈ st.active, aid ≠ ssid →
      aid ∈ (if activeContains st5.searchspaces st5.active (st5.searchspaces.getD i default).domains &&
          (st5.searchspaces.getD i default).done st5.maxEvals then
        { st5 with active := (removeActiveAux st5.searchspaces
            (st5.searchspaces.getD i default).domains st5.active).getD st5.active }
      else st5).active) := by
  have hsearch : (if activeContains st5.searchspaces st5.active (st5.searchspaces.getD i default).domains &&
      (st5.searchspaces.getD i default).done st5.maxEvals then
        { st5 with active := (removeActiveAux st5.searchspaces
            (st5.searchspaces.getD i default).domains st5.active).getD st5.active }
      else st5).searchspaces = st5.searchspaces := by
    split
    · rfl
    · rfl
  have hspec := activeUpdate_spec st5 st (st5.searchspaces.getD i default).domains ssid
    ((st5.searchspaces.getD i default).done st5.maxEvals) hact hdomc hdommatch hkey5 hnodup
  constructor
  · intro hdone
    rw [hsearch] at hdone
    rw [← hme] at hdone
    exact hspec.1 hdone
  · exact hspec.2

/-- C4 amended: done(max_evals) holds exactly when the DONE count reaches
max_evals; and provided the search spaces have pairwise distinct ids and
pairwise distinct domain-name lists (active membership and removal compare
domain-name lists through the overridden SearchSpace equality), a
successful register_result call leaves the target space out of the active
list whenever its DONE count satisfies the quota, and keeps every other
active entry. -/
theorem c4_done_quota_amended {V : Type} [DecidableEq V] (st : FMinState V)
    (ssid tid i : Nat) (obj res : Option V) (err : Option String)
    (hi : st.searchspaces.findIdx? (fun s => decide (s.sid = ssid)) = some i)
    (hnodup : st.active.Nodup)
    (hids : st.searchspaces.Pairwise (fun a b => a.sid ≠ b.sid))
    (hdoms : st.searchspaces.Pairwise (fun a b => a.domains ≠ b.domains))
    (hwf : ∀ aid ∈ st.active, ∃ s ∈ st.searchspaces, s.sid = aid) :
    (∀ (m : Nat) (s : SSpace V), s.done m = true ↔ m ≤ countDone s) ∧
    (regIsOk (registerResult st ssid tid obj res err) = true →
      ((regStateAfter (registerResult st ssid tid obj res err)).searchspaces.getD i
          default).done st.maxEvals = true →
      ssid ∉ (regStateAfter (registerResult st ssid tid obj res err)).active) ∧
    (∀ aid ∈ st.active, aid ≠ ssid →
      aid ∈ (regStateAfter (registerResult st ssid tid obj res err)).active) := by
  refine ⟨fun m s => by simp [SSpace.done], ?_⟩
  -- facts about the located space
  have hchar := List.findIdx?_eq_some_iff_getElem.mp hi
  obtain ⟨hlen, hpi, hmin⟩ := hchar
  have hgetd : st.searchspaces.getD i default = st.searchspaces[i] := by
    rw [List.getD_eq_getElem?_getD, List.getElem?_eq_getElem hlen]
    rfl
  have hsidi : (st.searchspaces.getD i default).sid = ssid := by
    rw [hgetd]
    exact of_decide_eq_true hpi
  have hmemi : st.searchspaces.getD i default ∈ st.searchspaces := by
    rw [hgetd]
    exact List.getElem_mem hlen
  have hdomssid : domainsOf st.searchspaces ssid =
      (st.searchspaces.getD i default).domains := by
    unfold domainsOf
    rw [find?_getD_of_findIdx? st.searchspaces _ i ?_ default]
    · rfl
    · exact hi
  have hkey : ∀ aid ∈ st.active,
      domainsOf st.searchspaces aid = (st.searchspaces.getD i default).domains → aid = ssid := by
    intro aid hmem hd
    obtain ⟨s, hs, hsid⟩ := hwf aid hmem
    subst hsid
    have hfind : st.searchspaces.find? (fun x => decide (x.sid = s.sid)) = some s :=
      find?_sid_unique st.searchspaces hids s hs
    have hds : domainsOf st.searchspaces s.sid = s.domains := by
      unfold domainsOf
      rw [hfind]
      rfl
    rw [hds] at hd
    have hseq : s = st.searchspaces.getD i default := by
      refine pairwise_mem_eq (fun a b hab => fun he => hab he.symm) st.searchspaces hdoms s _ hs hmemi ?_
      simp [hd]
    rw [hseq, hsidi]
  unfold registerResult
  rw [hi]
  simp only []
  cases hj : (st.searchspaces.getD i default).trials.findIdx? (fun t => decide (t.tid = tid)) with
  | none =>
    constructor
    · intro hok
      simp [regIsOk] at hok
    · intro aid hmem _
      simpa [regStateAfter] using hmem
  | some j =>
    simp only [regIsOk, regStateAfter]
    constructor
    · intro _
      exact (c4_main_step st _ i ssid (by simp) (fun aid => by simp)
        (by rw [hdomssid]; simp only [putTrial_getD_domains])
        (fun aid hm hd => hkey aid hm (by rw [hd]; simp only [putTrial_getD_domains]))
        hnodup (by simp)).1
    · exact (c4_main_step st _ i ssid (by simp) (fun aid => by simp)
        (by rw [hdomssid]; simp only [putTrial_getD_domains])
        (fun aid hm hd => hkey aid hm (by rw [hd]; simp only [putTrial_getD_domains]))
        hnodup (by simp)).2



/-- C4 counterexample: two search spaces sharing the domain-name list
(reachable from an Exhaustive split, whose configurations all carry the
same names).  Registering the quota-reaching result on the second space
removes the first space from the active list instead, because membership
and removal compare spaces with the overridden equality on domain names:
afterwards the target space, now at quota, is still active, and the first
space, below quota, is gone. -/
theorem c4_active_removal_counterexample :
    (let st0 : FMinState Int :=
      { searchspaces := [
          { sid := 0, domains := ["A"], trials := [], complexity := 1, uncertainty := 1, rank := 1 },
          { sid := 1, domains := ["A"],
            trials := [{ tid := 0, hyperparameters := some [1], results := none, objective := none, errmsg := none, status := some TStatus.READY, dirty := true, submissions := 0 }],
            complexity := 1, uncertainty := 1, rank := 1 }],
        trialsReg := [], active := [0, 1], maxEvals := 1 }
     (((regStateAfter (registerResult st0 1 0 (some 1) (some 1) none)).searchspaces.getD 1
         default).done st0.maxEvals = true) ∧
     (1 ∈ (regStateAfter (registerResult st0 1 0 (some 1) (some 1) none)).active) ∧
     (0 ∉ (regStateAfter (registerResult st0 1 0 (some 1) (some 1) none)).active) ∧
     (countDone (st0.searchspaces.getD 0 default) < st0.maxEvals)) := by
  exact ⟨by decide, by decide, by decide, by decide⟩

/-- Witness for the amended C4 at a concrete input: one space, one trial,
quota one. -/
theorem c4_done_quota_amended_witness :
    (let stW : FMinState Int :=
      { searchspaces := [
          { sid := 0, domains := ["A"],
            trials := [{ tid := 0, hyperparameters := some [1], results := none, objective := none, errmsg := none, status := some TStatus.READY, dirty := true, submissions := 0 }],
            complexity := 1, uncertainty := 1, rank := 1 }],
        trialsReg := [], active := [0], maxEvals := 1 }
     (stW.searchspaces.findIdx? (fun s => decide (s.sid = 0)) = some 0) ∧
     stW.active.Nodup ∧
     stW.searchspaces.Pairwise (fun a b => a.sid ≠ b.sid) ∧
     stW.searchspaces.Pairwise (fun a b => a.domains ≠ b.domains) ∧
     (∀ aid ∈ stW.active, ∃ s ∈ stW.searchspaces, s.sid = aid) ∧
     ((∀ (m : Nat) (s : SSpace Int), s.done m = true ↔ m ≤ countDone s) ∧
      (regIsOk (registerResult stW 0 0 (some 1) (some 1) none) = true →
        ((regStateAfter (registerResult stW 0 0 (some 1) (some 1) none)).searchspaces.getD 0
            default).done stW.maxEvals = true →
        0 ∉ (regStateAfter (registerResult stW 0 0 (some 1) (some 1) none)).active) ∧
      (∀ aid ∈ stW.active, aid ≠ 0 →
        aid ∈ (regStateAfter (registerResult stW 0 0 (some 1) (some 1) none)).active))) := by
  refine ⟨by decide, by decide, by decide, by decide, by decide,
    c4_done_quota_amended _ 0 0 0 (some 1) (some 1) none (by decide) (by decide)
      (by decide) (by decide) (by decide)⟩



/-- The submission count is untouched by setStatus. -/
theorem setStatus_sub {V : Type} (st : TrialState V) :
    (setStatus st).submissions = st.submissions := setStatusAux_sub 3 st

/-- The hyperparameters after a setattr assignment are those stored by the
plain write. -/
theorem setAttr_hyp {V : Type} [DecidableEq V] (st : TrialState V) (a : Assign V) :
    (setAttr st a).hyperparameters = (putAssign st a).hyperparameters := by
  unfold setAttr
  split
  · rfl
  · rw [setStatus_hyp]

/-- The results after a setattr assignment are those stored by the plain
write. -/
theorem setAttr_res {V : Type} [DecidableEq V] (st : TrialState V) (a : Assign V) :
    (setAttr st a).results = (putAssign st a).results := by
  unfold setAttr
  split
  · rfl
  · rw [setStatus_res]

/-- The errmsg after a setattr assignment is the one stored by the plain
write. -/
theorem setAttr_err {V : Type} [DecidableEq V] (st : TrialState V) (a : Assign V) :
    (setAttr st a).errmsg = (putAssign st a).errmsg := by
  unfold setAttr
  split
  · rfl
  · rw [setStatus_err]

/-- The submission count is untouched by a setattr assignment. -/
theorem setAttr_sub {V : Type} [DecidableEq V] (st : TrialState V) (a : Assign V) :
    (setAttr st a).submissions = st.submissions := by
  unfold setAttr
  split
  · cases a <;> rfl
  · rw [setStatus_sub]; cases a <;> rfl

/-- Submissions after the submissions += 1 statement. -/
theorem incSubmissions_sub {V : Type} (st : TrialState V) :
    (incSubmissions st).submissions = st.submissions + 1 := by
  unfold incSubmissions
  rw [setStatus_closed]

/-- Status after the submissions += 1 statement: the re-triggered
set_status classifies the unchanged fields. -/
theorem incSubmissions_status {V : Type} (st : TrialState V) :
    (incSubmissions st).status =
      some (classify st.hyperparameters st.results st.errmsg) := by
  unfold incSubmissions
  rw [setStatus_closed]

/-- Replacing a list entry with a DONE trial cannot lower the DONE count. -/
theorem countDone_set_done {V : Type} (l : List (TrialState V)) (j : Nat)
    (t : TrialState V) (ht : t.status = some TStatus.DONE) :
    (l.filter (fun x => decide (x.status = some TStatus.DONE))).length ≤
      ((l.set j t).filter (fun x => decide (x.status = some TStatus.DONE))).length := by
  induction l generalizing j with
  | nil => simp
  | cons a rest ih =>
    cases j with
    | zero =>
      simp only [List.set_cons_zero, List.filter_cons]
      by_cases ha : a.status = some TStatus.DONE
      · simp [ha, ht]
      · simp [ha, ht]
    | succ j =>
      simp only [List.set_cons_succ, List.filter_cons]
      by_cases ha : a.status = some TStatus.DONE
      · simpa [ha] using ih j
      · simpa [ha] using ih j

/-- The trials of the space at the replaced index after putTrial. -/
theorem putTrial_getD_trials {V : Type} (st : FMinState V) (i j : Nat) (t : TrialState V) :
    ((putTrial st i j t).searchspaces.getD i default).trials =
      (st.searchspaces.getD i default).trials.set j t := by
  unfold putTrial
  simp only []
  rw [getD_set_self]
  split
  · rfl
  · rename_i hlen
    rw [List.getD_eq_getElem?_getD, List.getElem?_eq_none (Nat.le_of_not_lt hlen)]
    rfl

/-- Removal only depends on the domains reported for the entries. -/
theorem removeActiveAux_congr {V : Type} (sp sp2 : List (SSpace V)) (doms : List String)
    (h : ∀ aid, domainsOf sp2 aid = domainsOf sp aid) :
    ∀ l, removeActiveAux sp2 doms l = removeActiveAux sp doms l := by
  intro l
  induction l with
  | nil => rfl
  | cons a rest ih => simp [removeActiveAux, h, ih]

/-- Processing a concatenated batch is processing the first part and, on
success, continuing with the second from the reached state and index. -/
theorem batchLoop_append {V : Type} [DecidableEq V] (err : Option String)
    (objs ress : List (Option V)) (i : Nat) (pre post : List Nat) :
    ∀ (k : Nat) (st : FMinState V) (hy : List (Option (List V))) (s : Nat),
      batchLoop err objs ress i (pre ++ post) k st hy s =
        (match batchLoop err objs ress i pre k st hy s with
         | .ok (st1, s1, hy1) => batchLoop err objs ress i post (k + pre.length) st1 hy1 s1
         | .error e => .error e) := by
  induction pre with
  | nil =>
    intro k st hy s
    simp [batchLoop]
  | cons t pre ih =>
    intro k st hy s
    simp only [List.cons_append, batchLoop]
    cases hstep : batchStep err objs ress i t k st with
    | error e => simp
    | ok out =>
      obtain ⟨st6, hyEntry, subs⟩ := out
      simp only [List.append_eq]
      rw [ih]
      rw [show k + (t :: pre).length = k + 1 + pre.length by
        simp only [List.length_cons]; omega]



/-- A successful re-registration (result value present, no error message,
hyperparameters present) lands the mutated trial in DONE. -/
theorem mutated_trial_done {V : Type} [DecidableEq V] (trial : TrialState V)
    (ob : Option V) (rv : V) (hhyp : trial.hyperparameters ≠ none) :
    (incSubmissions (setAttr (setAttr (setAttr trial (Assign.objective ob))
        (Assign.results (some rv))) (Assign.errmsg none))).status = some TStatus.DONE := by
  rw [incSubmissions_status]
  have hh : (setAttr (setAttr (setAttr trial (Assign.objective ob))
      (Assign.results (some rv))) (Assign.errmsg none)).hyperparameters =
      trial.hyperparameters := by
    simp [setAttr_hyp, putAssign]
  have hr : (setAttr (setAttr (setAttr trial (Assign.objective ob))
      (Assign.results (some rv))) (Assign.errmsg none)).results = some rv := by
    simp [setAttr_res, putAssign]
  have he : (setAttr (setAttr (setAttr trial (Assign.objective ob))
      (Assign.results (some rv))) (Assign.errmsg none)).errmsg = none := by
    simp [setAttr_err, putAssign]
  rw [hh, hr, he]
  have hsome : trial.hyperparameters.isSome = true := Option.isSome_iff_ne_none.mpr hhyp
  simp [classify, hsome]

/-- Submissions of the mutated trial are the old count plus one. -/
theorem mutated_trial_sub {V : Type} [DecidableEq V] (trial : TrialState V)
    (ob : Option V) (rv : V) :
    (incSubmissions (setAttr (setAttr (setAttr trial (Assign.objective ob))
        (Assign.results (some rv))) (Assign.errmsg none))).submissions =
      trial.submissions + 1 := by
  rw [incSubmissions_sub, setAttr_sub, setAttr_sub, setAttr_sub]



/-- Trials of the target space after the batch mutations: the located trial
replaced by its fully mutated version. -/
theorem batchMut_trials {V : Type} [DecidableEq V] (err : Option String) (st : FMinState V)
    (i j tid : Nat) (ob re : Option V) :
    ((batchMut err st i j tid ob re).searchspaces.getD i default).trials =
      (st.searchspaces.getD i default).trials.set j
        (incSubmissions (setAttr (setAttr (setAttr
          ((st.searchspaces.getD i default).trials.getD j default)
          (Assign.objective ob)) (Assign.results re)) (Assign.errmsg err))) := by
  simp only [batchMut, putTrial_getD_trials, List.set_set]

/-- The active list is untouched by the batch mutations. -/
theorem batchMut_active {V : Type} [DecidableEq V] (err : Option String) (st : FMinState V)
    (i j tid : Nat) (ob re : Option V) :
    (batchMut err st i j tid ob re).active = st.active := rfl

/-- The quota is untouched by the batch mutations. -/
theorem batchMut_maxEvals {V : Type} [DecidableEq V] (err : Option String) (st : FMinState V)
    (i j tid : Nat) (ob re : Option V) :
    (batchMut err st i j tid ob re).maxEvals = st.maxEvals := rfl

/-- The domains of the target space are untouched by the batch mutations. -/
theorem batchMut_domains {V : Type} [DecidableEq V] (err : Option String) (st : FMinState V)
    (i j tid : Nat) (ob re : Option V) :
    ((batchMut err st i j tid ob re).searchspaces.getD i default).domains =
      (st.searchspaces.getD i default).domains := by
  simp only [batchMut, putTrial_getD_domains]

/-- The domains reported for any active entry are untouched by the batch
mutations. -/
theorem batchMut_domainsOf {V : Type} [DecidableEq V] (err : Option String) (st : FMinState V)
    (i j tid : Nat) (ob re : Option V) (aid : Nat) :
    domainsOf (batchMut err st i j tid ob re).searchspaces aid =
      domainsOf st.searchspaces aid := by
  simp only [batchMut, domainsOf_putTrial]

/-- One batch iteration on a space already at quota whose active entry is
gone: the trial is located and fully mutated, the quota test passes, and
the unchecked removal raises ValueError; the carried state holds the
mutation, with the submissions of the processed trial bumped. -/
theorem batchStep_quota_fail {V : Type} [DecidableEq V] (objs ress : List (Option V))
    (i k tid2 j : Nat) (st1 : FMinState V) (ob : Option V) (rv : V)
    (hj : (st1.searchspaces.getD i default).trials.findIdx?
      (fun t => decide (t.tid = tid2)) = some j)
    (hob : objs.get? k = some ob)
    (hre : ress.get? k = some (some rv))
    (hhyp : ((st1.searchspaces.getD i default).trials.getD j default).hyperparameters ≠ none)
    (hdone1 : st1.maxEvals ≤ countDone (st1.searchspaces.getD i default))
    (hnorem : removeActiveAux st1.searchspaces
      ((st1.searchspaces.getD i default).domains) st1.active = none) :
    batchStep none objs ress i tid2 k st1 =
      .error (.valueError, batchMut none st1 i j tid2 ob (some rv)) ∧
    st1.maxEvals ≤
      countDone ((batchMut none st1 i j tid2 ob (some rv)).searchspaces.getD i default) ∧
    (((batchMut none st1 i j tid2 ob (some rv)).searchspaces.getD i
        default).trials.getD j default).submissions =
      ((st1.searchspaces.getD i default).trials.getD j default).submissions + 1 := by
  have hjlen : j < (st1.searchspaces.getD i default).trials.length := by
    obtain ⟨hl, _, _⟩ := List.findIdx?_eq_some_iff_getElem.mp hj
    exact hl
  have ht4 := mutated_trial_done ((st1.searchspaces.getD i default).trials.getD j default)
    ob rv hhyp
  have hcd : st1.maxEvals ≤
      countDone ((batchMut none st1 i j tid2 ob (some rv)).searchspaces.getD i default) := by
    unfold countDone
    rw [batchMut_trials]
    exact le_trans hdone1 (countDone_set_done _ j _ ht4)
  have hdone5 : ((batchMut none st1 i j tid2 ob (some rv)).searchspaces.getD i default).done
      (batchMut none st1 i j tid2 ob (some rv)).maxEvals = true := by
    unfold SSpace.done
    rw [batchMut_maxEvals]
    exact decide_eq_true hcd
  have hrm : removeActiveAux (batchMut none st1 i j tid2 ob (some rv)).searchspaces
      ((batchMut none st1 i j tid2 ob (some rv)).searchspaces.getD i default).domains
      (batchMut none st1 i j tid2 ob (some rv)).active = none := by
    rw [batchMut_domains, batchMut_active]
    rw [removeActiveAux_congr st1.searchspaces _ _
      (batchMut_domainsOf none st1 i j tid2 ob (some rv)) st1.active]
    exact hnorem
  refine ⟨?_, hcd, ?_⟩
  · simp only [batchStep, hj, hob, hre]
    rw [if_pos hdone5, hrm]
  · rw [batchMut_trials, getD_set_self]
    rw [if_pos hjlen]
    exact mutated_trial_sub _ ob rv


/-- C10: in the batched form of register_result, the quota test after each
iteration triggers an unchecked removal from the active list; once a batch
on one space reaches the quota before its last id is processed (so the
space is already gone from active), processing the next id first performs
all its trial mutations and then fails with ValueError on the repeated
removal, with the earlier mutations of the batch retained in the carried
state. -/
theorem c10_batch_quota_midbatch_failure {V : Type} [DecidableEq V]
    (st : FMinState V) (ssid i p0 : Nat) (pre rest : List Nat) (tid2 j : Nat)
    (objs ress : List (Option V)) (st1 : FMinState V) (s1 : Nat)
    (hy1 : List (Option (List V))) (ob : Option V) (rv : V)
    (hi : st.searchspaces.findIdx? (fun s => decide (s.sid = ssid)) = some i)
    (hpre : batchLoop none objs ress i (p0 :: pre) 0 st [] 0 = .ok (st1, s1, hy1))
    (hj : (st1.searchspaces.getD i default).trials.findIdx?
      (fun t => decide (t.tid = tid2)) = some j)
    (hob : objs.get? (p0 :: pre).length = some ob)
    (hre : ress.get? (p0 :: pre).length = some (some rv))
    (hhyp : ((st1.searchspaces.getD i default).trials.getD j default).hyperparameters ≠ none)
    (hdone1 : st1.maxEvals ≤ countDone (st1.searchspaces.getD i default))
    (hnorem : removeActiveAux st1.searchspaces
      ((st1.searchspaces.getD i default).domains) st1.active = none) :
    ∃ stE, registerResultBatch st ssid ((p0 :: pre) ++ tid2 :: rest) objs ress none =
        .error (.valueError, stE) ∧
      st1.maxEvals ≤ countDone (stE.searchspaces.getD i default) ∧
      ((stE.searchspaces.getD i default).trials.getD j default).submissions =
        ((st1.searchspaces.getD i default).trials.getD j default).submissions + 1 := by
  obtain ⟨hstep, hcd, hsub⟩ := batchStep_quota_fail objs ress i (p0 :: pre).length tid2 j
    st1 ob rv hj hob hre hhyp hdone1 hnorem
  refine ⟨batchMut none st1 i j tid2 ob (some rv), ?_, hcd, hsub⟩
  unfold registerResultBatch
  rw [hi]
  simp only [List.cons_append]
  rw [← List.cons_append, batchLoop_append, hpre]
  simp only [Nat.zero_add, batchLoop]
  rw [hstep]

/-- Witness for C10: one space (sid 0, one domain, quota 1) with two READY
trials, batch ids [0, 1].  Registering trial 0 reaches the quota and empties
the active list; processing trial id 1 then mutates that trial and fails
with ValueError on the repeated removal. -/
theorem c10_batch_quota_midbatch_failure_witness :
    (let t0 : TrialState Nat := { tid := 0, hyperparameters := some [1], results := none, objective := none, errmsg := none, status := some TStatus.READY, dirty := true, submissions := 0 }
     let t1 : TrialState Nat := { tid := 1, hyperparameters := some [2], results := none, objective := none, errmsg := none, status := some TStatus.READY, dirty := true, submissions := 0 }
     let st0 : FMinState Nat := { searchspaces := [{ sid := 0, domains := ["A"], trials := [t0, t1], complexity := 0, uncertainty := 0, rank := 1 }], trialsReg := [], active := [0], maxEvals := 1 }
     let t0d : TrialState Nat := { tid := 0, hyperparameters := some [1], results := some 5, objective := some 5, errmsg := none, status := some TStatus.DONE, dirty := true, submissions := 1 }
     let st1 : FMinState Nat := { searchspaces := [{ sid := 0, domains := ["A"], trials := [t0d, t1], complexity := 0, uncertainty := 0, rank := 1 }], trialsReg := [0], active := [], maxEvals := 1 }
     ∃ stE, registerResultBatch st0 0 ((0 :: []) ++ 1 :: []) [some 5, some 6] [some 5, some 6] none =
         .error (.valueError, stE) ∧
       st1.maxEvals ≤ countDone (stE.searchspaces.getD 0 default) ∧
       ((stE.searchspaces.getD 0 default).trials.getD 1 default).submissions =
         ((st1.searchspaces.getD 0 default).trials.getD 1 default).submissions + 1) := by
  exact c10_batch_quota_midbatch_failure _ 0 0 0 [] [] 1 1
    [some 5, some 6] [some 5, some 6] _ 1 [some [1]] (some 6) 6
    (by rfl) (by rfl) (by rfl) (by rfl) (by rfl) (by decide) (by decide) (by rfl)

end Pyrameter
